import Mathlib

/-!
# WalletAlert domain-persistence layer: a verification development

Shallow embedding of the WalletAlert budgeting application's domain layer:
the in-memory fallback store (`store.js`) and the pure period-aggregation
utilities (`budget.js` / `format.js` module group).  JavaScript strings are
Lean `String`s (lists of Unicode code points), JavaScript numbers are `ℚ`
with an explicit `nan` marker where the code can produce or receive `NaN`,
and local-time `Date` values are civil dates (year / month / day /
millisecond-of-day) on a single local timeline.
-/

namespace WalletAlert

/-! ## JavaScript primitive value modelling -/

/-- Whitespace recognised by `String.prototype.trim` (WhiteSpace and
LineTerminator code points). -/
def isJsWhitespace (c : Char) : Bool :=
  let n := c.toNat
  (0x09 ≤ n && n ≤ 0x0D) || n == 0x20 || n == 0xA0 || n == 0x1680 ||
  (0x2000 ≤ n && n ≤ 0x200A) || n == 0x2028 || n == 0x2029 ||
  n == 0x202F || n == 0x205F || n == 0x3000 || n == 0xFEFF

/-- Model of `String.prototype.trim`: strip leading and trailing whitespace. -/
def jsTrim (s : String) : String :=
  ⟨((s.data.dropWhile isJsWhitespace).reverse.dropWhile isJsWhitespace).reverse⟩

/-- Model of `String.prototype.toLowerCase` (ASCII range, which is all the store
compares). -/
def jsToLower (s : String) : String :=
  ⟨s.data.map Char.toLower⟩

/-- A JavaScript value as it can reach `Number(...)` coercion in this code
base: a (finite) number, `NaN`, `null`, `undefined`, or a string. -/
inductive JsVal where
  | num (q : ℚ)
  | nan
  | null
  | undef
  | str (s : String)
deriving DecidableEq

/-- Numeric value of an all-digit list (most significant digit first). -/
def digitsVal (cs : List Char) : Nat :=
  cs.foldl (fun a c => 10 * a + (c.toNat - '0'.toNat)) 0

/-- Parse an unsigned decimal numeral, with an optional single decimal
point; `none` models `NaN`. -/
def parseUnsigned (cs : List Char) : Option ℚ :=
  let ip := cs.takeWhile (fun c => c ≠ '.')
  let rest := cs.dropWhile (fun c => c ≠ '.')
  match rest with
  | [] =>
      if ip ≠ [] && ip.all Char.isDigit then some (digitsVal ip : ℚ) else none
  | _ :: fp =>
      if (ip ≠ [] || fp ≠ []) && ip.all Char.isDigit && fp.all Char.isDigit then
        some ((digitsVal ip : ℚ) + (digitsVal fp : ℚ) / 10 ^ fp.length)
      else none

/-- Model of `Number(string)` coercion restricted to plain decimal numerals (the
only string shapes relevant to the store's data): the empty or
all-whitespace string is `0`, an optionally signed decimal numeral is its
value, anything else is `NaN` (`none`). -/
def jsStringToNumber (s : String) : Option ℚ :=
  match (jsTrim s).data with
  | [] => some 0
  | '+' :: rest => parseUnsigned rest
  | '-' :: rest => (parseUnsigned rest).map Neg.neg
  | cs => parseUnsigned cs

/-- Model of `Number(v)` for the values `JsVal` models; `none` stands for `NaN`.
`Number(null) = 0`, `Number(undefined) = NaN`. -/
def jsToNumber : JsVal → Option ℚ
  | .num q => some q
  | .nan => none
  | .null => some 0
  | .undef => none
  | .str s => jsStringToNumber s

/-! ## Civil-calendar model of local-time `Date`

A `Date` as the period calculator uses it: a local civil timestamp.
`month` follows the JavaScript convention `0`–`11`; `day` is `getDate()`
(1-based); `msOfDay` collapses `getHours/Minutes/Seconds/Milliseconds`. -/

structure CivilDate where
  year : Int
  month : Nat
  day : Nat
  msOfDay : Nat
deriving DecidableEq

/-- Gregorian leap year. -/
def isLeap (y : Int) : Bool :=
  (y % 4 == 0 && y % 100 != 0) || y % 400 == 0

/-- Extra day contributed by a leap year. -/
def leapOffset (y : Int) : Int := if isLeap y then 1 else 0

/-- Length of month `m` (0 = January) of year `y`. -/
def daysInMonth (y : Int) (m : Nat) : Nat :=
  match m with
  | 0 => 31
  | 1 => if isLeap y then 29 else 28
  | 2 => 31
  | 3 => 30
  | 4 => 31
  | 5 => 30
  | 6 => 31
  | 7 => 31
  | 8 => 30
  | 9 => 31
  | 10 => 30
  | _ => 31

/-- Days of year `y` that precede month `m` (0 = January). -/
def daysBeforeMonth (y : Int) (m : Nat) : Int :=
  match m with
  | 0 => 0
  | 1 => 31
  | 2 => 59 + leapOffset y
  | 3 => 90 + leapOffset y
  | 4 => 120 + leapOffset y
  | 5 => 151 + leapOffset y
  | 6 => 181 + leapOffset y
  | 7 => 212 + leapOffset y
  | 8 => 243 + leapOffset y
  | 9 => 273 + leapOffset y
  | 10 => 304 + leapOffset y
  | _ => 334 + leapOffset y

/-- Days strictly before January 1 of year `y`, counted from 0001-01-01 of
the proleptic Gregorian calendar. -/
def daysBeforeYear (y : Int) : Int :=
  365 * (y - 1) + (y - 1) / 4 - (y - 1) / 100 + (y - 1) / 400

/-- Day number of a civil date on the local timeline, with 1970-01-01 as
day 0 (the Unix epoch of `Date`). -/
def dayNumber (d : CivilDate) : Int :=
  daysBeforeYear d.year + daysBeforeMonth d.year d.month + (d.day : Int) - 1
    - daysBeforeYear 1970

/-- A structurally valid civil date: month in `0`–`11` and day within the
month. -/
def CivilDate.Valid (d : CivilDate) : Prop :=
  d.month ≤ 11 ∧ 1 ≤ d.day ∧ d.day ≤ daysInMonth d.year d.month

instance (d : CivilDate) : Decidable d.Valid := by
  unfold CivilDate.Valid; infer_instance

/-- Model of `Date.prototype.getDay`: 0 = Sunday … 6 = Saturday.  1970-01-01 was a
Thursday (4). -/
def weekday (d : CivilDate) : Int :=
  (dayNumber d + 4) % 7

/-- The civil date one day earlier, rolling over month and year boundaries
exactly as `setDate(getDate() - 1)` does; time-of-day is preserved. -/
def prevDay (d : CivilDate) : CivilDate :=
  if 1 < d.day then { d with day := d.day - 1 }
  else if 0 < d.month then
    { d with month := d.month - 1, day := daysInMonth d.year (d.month - 1) }
  else
    { year := d.year - 1, month := 11, day := 31, msOfDay := d.msOfDay }

/-- Model of `setDate(getDate() - n)`: go back `n` civil days. -/
def subDays (n : Nat) (d : CivilDate) : CivilDate :=
  prevDay^[n] d

/-- Millisecond instant of a civil timestamp on the local timeline
(`Date.prototype.valueOf` with the local zone as the timeline). -/
def toInstant (d : CivilDate) : Int :=
  86400000 * dayNumber d + (d.msOfDay : Int)

/-! ## Period calculator (`getCurrentPeriodStart` and friends)

`period` is an `Option String`: `none` models calling the function with
the argument missing (`undefined`). -/

/-- Translation of `getCurrentPeriodStart(period)`, evaluated at the current instant
`now`: for `"weekly"` go back `(getDay() + 6) % 7` days and clear the
time-of-day; for `"monthly"` — and for any other value — the 1st of the
current month at local midnight. -/
def getCurrentPeriodStart (period : Option String) (now : CivilDate) : CivilDate :=
  if period = some "weekly" then
    let day := weekday now
    let diff := (day + 6) % 7
    let weekStart := subDays diff.toNat now
    { weekStart with msOfDay := 0 }
  else if period = some "monthly" then
    { year := now.year, month := now.month, day := 1, msOfDay := 0 }
  else
    { year := now.year, month := now.month, day := 1, msOfDay := 0 }

/-- A JavaScript `Date` value as a comparison subject: a valid instant or
Invalid Date (`none`). -/
abbrev JsDate := Option Int

/-- A transaction as the period calculator reads it: `date` / `createdAt`
are `none` when the field is absent (or falsy), `some d` when present,
where `d` is the `new Date(...)` parse of the stored value. -/
structure CalcTx where
  amount : JsVal
  date : Option JsDate
  createdAt : Option JsDate
deriving DecidableEq

/-- A budget as the period calculator reads it. -/
structure CalcBudget where
  period : Option String
  amount : JsVal
deriving DecidableEq

/-- Model of `new Date(tx.date || tx.createdAt)`: the transaction's effective date
value — `date` when present, else `createdAt`, else Invalid Date. -/
def effectiveDate (tx : CalcTx) : JsDate :=
  match tx.date with
  | some d => d
  | none =>
      match tx.createdAt with
      | some d => d
      | none => (none : Option Int)

/-- Model of `txDate >= periodStart` for a possibly invalid `txDate` (`NaN`
comparisons are false). -/
def jsDateGE (d : JsDate) (start : Int) : Bool :=
  match d with
  | some t => start ≤ t
  | none => false

/-- Translation of `filterTransactionsByPeriod(transactions, period)`, evaluated at `now`:
keep transactions whose effective date is on or after the period start. -/
def filterTransactionsByPeriod (now : CivilDate) (transactions : List CalcTx)
    (period : Option String) : List CalcTx :=
  let periodStart := toInstant (getCurrentPeriodStart period now)
  transactions.filter (fun tx => jsDateGE (effectiveDate tx) periodStart)

/-- One reduction step of the spending accumulator: add `Number(amount)`
when it is finite and strictly positive. -/
def addSpending (sum : ℚ) (tx : CalcTx) : ℚ :=
  match jsToNumber tx.amount with
  | some amt => if 0 < amt then sum + amt else sum
  | none => sum

/-- Translation of `calculateCurrentPeriodSpending(transactions, budgets)`, evaluated at
`now`: choose the most restrictive period present among the budgets
(defaulting to `"monthly"` when there are none), filter, and fold the
finite positive amounts. -/
def calculateCurrentPeriodSpending (now : CivilDate) (transactions : List CalcTx)
    (budgets : List CalcBudget) : ℚ :=
  let periods := (budgets.map (fun b => b.period)).dedup
  let periods := if periods.isEmpty then [some "monthly"] else periods
  let activePeriod := if (some "weekly") ∈ periods then "weekly" else "monthly"
  let filteredTransactions := filterTransactionsByPeriod now transactions (some activePeriod)
  filteredTransactions.foldl addSpending 0


/-! ## In-memory fallback store (`store.js`)

Each operation consumes and returns the whole store state, so mutations
performed before a `throw` (notably default-category seeding) persist,
exactly as with the process-wide `Map`s of the source.  Failures are the
thrown error's message. -/

/-- Default category names seeded for an owner with no categories. -/
def DEFAULT_CATEGORIES : List String :=
  ["Groceries", "Takeout", "Utilities", "Electronics", "Other"]

/-- Fresh record identifiers.  The source draws ids from
`Date.now()`/`Math.random()`; the embedding models that uniqueness source
as an injective function of a per-store counter. -/
def idOf (n : Nat) : String :=
  ⟨List.replicate (n + 1) 'i'⟩

/-- User record of the in-memory `memUsers` map. -/
structure UserRec where
  auth0_id : String
  email : Option String
  createdAt : Int
deriving DecidableEq

/-- Budget record of the in-memory `memBudgets` map. -/
structure BudgetRec where
  id : String
  auth0_id : String
  period : Option String
  amount : JsVal
  createdAt : Int
deriving DecidableEq

/-- Payload of `createBudget` (`{period, amount}` as the routes send it). -/
structure BudgetData where
  period : Option String
  amount : JsVal
deriving DecidableEq

/-- Partial update for `updateBudget`: `some` marks a key present in
`changes`. -/
structure BudgetPatch where
  period : Option (Option String)
  amount : Option JsVal
deriving DecidableEq

/-- Spread-merge `{...budget, ...changes}`. -/
def BudgetRec.applyPatch (b : BudgetRec) (p : BudgetPatch) : BudgetRec :=
  { b with
    period := p.period.getD b.period
    amount := p.amount.getD b.amount }

/-- Transaction record of the in-memory `memTx` map. -/
structure TxRec where
  id : String
  auth0_id : String
  amount : JsVal
  category : Option String
  date : Option JsDate
  createdAt : Int
deriving DecidableEq

/-- Payload of `createTransaction`. -/
structure TxData where
  amount : JsVal
  category : Option String
  date : Option JsDate
deriving DecidableEq

/-- Partial update for `updateTransaction`. -/
structure TxPatch where
  amount : Option JsVal
  category : Option (Option String)
  date : Option (Option JsDate)
deriving DecidableEq

/-- Spread-merge `{...tx, ...changes}`. -/
def TxRec.applyPatch (t : TxRec) (p : TxPatch) : TxRec :=
  { t with
    amount := p.amount.getD t.amount
    category := p.category.getD t.category
    date := p.date.getD t.date }

/-- Category record of the in-memory `memCategories` map. -/
structure CategoryRec where
  id : String
  auth0_id : String
  name : String
  emoji : Option String
  createdAt : Int
  updatedAt : Option Int
deriving DecidableEq

/-- Update payload of `updateCategory`: the outer `Option` records whether
the payload object has an `emoji` own-property at all; the inner one is
the value (`none` = `null`/`undefined`). -/
structure CategoryUpdates where
  emoji : Option (Option String)
deriving DecidableEq

/-- State of the in-memory fallback store: the four process-wide maps
(`memUsers`, `memBudgets`, `memTx`, `memCategories`, reading a missing
owner key as `none`/`[]`), plus the id-supply counter and the current
wall-clock value used for `new Date()` timestamps. -/
structure MemStore where
  users : String → Option UserRec
  budgets : String → List BudgetRec
  transactions : String → List TxRec
  categories : String → List CategoryRec
  nextId : Nat
  clock : Int

/-- Point-update of an owner-keyed map (`Map.prototype.set`). -/
def setMap {α : Type} (m : String → α) (k : String) (v : α) : String → α :=
  fun k2 => if k2 = k then v else m k2

/-- Draw a fresh id from the supply. -/
def MemStore.genId (σ : MemStore) : String × MemStore :=
  (idOf σ.nextId, { σ with nextId := σ.nextId + 1 })

/-- Truthiness of an optional string (`if (email)`). -/
def jsTruthyStr : Option String → Bool
  | none => false
  | some s => s ≠ ""

/-- Translation of `normalizeCategoryName`. -/
def normalizeCategoryName (name : String) : String :=
  jsTrim name

/-- Translation of `normalizeEmojiValue`: `null`/`undefined`/blank becomes
`null`; otherwise keep the first 3 elements of `Array.from(trimmed)` —
that is, the first 3 Unicode code points of the trimmed string. -/
def normalizeEmojiValue : Option String → Option String
  | none => none
  | some v =>
      let trimmed := jsTrim v
      if trimmed.data.isEmpty then none
      else some ⟨trimmed.data.take 3⟩

/-- Translation of `ensureMemCategories`: return the owner's categories,
seeding the defaults first when the collection is missing or empty. -/
def ensureMemCategories (auth0_id : String) (σ : MemStore) :
    List CategoryRec × MemStore :=
  let list := σ.categories auth0_id
  if list ≠ [] then (list, σ)
  else
    let seeded := DEFAULT_CATEGORIES.enum.map (fun p =>
      ({ id := idOf (σ.nextId + p.1), auth0_id := auth0_id, name := p.2,
         emoji := none, createdAt := σ.clock, updatedAt := none } : CategoryRec))
    (seeded,
      { σ with
        categories := setMap σ.categories auth0_id seeded,
        nextId := σ.nextId + DEFAULT_CATEGORIES.length })

/-- Result of `upsertUser`. -/
structure UpsertResult where
  user : Option UserRec
  created : Bool
deriving DecidableEq

/-- Translation of `upsertUser` (in-memory path). -/
def upsertUser (auth0_id : String) (email : Option String) (σ : MemStore) :
    Except String UpsertResult × MemStore :=
  if auth0_id = "" then (.ok ⟨none, false⟩, σ)
  else
    let existed := (σ.users auth0_id).isSome
    let existing := (σ.users auth0_id).getD ⟨auth0_id, email, σ.clock⟩
    let existing := if jsTruthyStr email then { existing with email := email } else existing
    (.ok ⟨some existing, !existed⟩,
      { σ with users := setMap σ.users auth0_id (some existing) })

/-- Translation of `getUser` (in-memory path). -/
def getUser (auth0_id : String) (σ : MemStore) : Option UserRec × MemStore :=
  if auth0_id = "" then (none, σ) else (σ.users auth0_id, σ)

/-- Translation of `listBudgets` (in-memory path). -/
def listBudgets (auth0_id : String) (σ : MemStore) :
    Except String (List BudgetRec) × MemStore :=
  (.ok (σ.budgets auth0_id), σ)

/-- Translation of `createBudget` (in-memory path). -/
def createBudget (auth0_id : String) (budget : BudgetData) (σ : MemStore) :
    Except String BudgetRec × MemStore :=
  let list := σ.budgets auth0_id
  let (id, σ1) := σ.genId
  let doc : BudgetRec :=
    { id := id, auth0_id := auth0_id, period := budget.period,
      amount := budget.amount, createdAt := σ.clock }
  (.ok doc, { σ1 with budgets := setMap σ1.budgets auth0_id (list ++ [doc]) })

/-- Translation of `updateBudget` (in-memory path). -/
def updateBudget (auth0_id id : String) (changes : BudgetPatch) (σ : MemStore) :
    Except String BudgetRec × MemStore :=
  let list := σ.budgets auth0_id
  let idx := list.findIdx (fun b => b.id == id)
  if h : idx < list.length then
    let updated := (list.get ⟨idx, h⟩).applyPatch changes
    (.ok updated, { σ with budgets := setMap σ.budgets auth0_id (list.set idx updated) })
  else (.error "Budget not found", σ)

/-- Translation of `deleteBudget` (in-memory path). -/
def deleteBudget (auth0_id id : String) (σ : MemStore) :
    Except String BudgetRec × MemStore :=
  let list := σ.budgets auth0_id
  let idx := list.findIdx (fun b => b.id == id)
  if h : idx < list.length then
    (.ok (list.get ⟨idx, h⟩),
      { σ with budgets := setMap σ.budgets auth0_id (list.eraseIdx idx) })
  else (.error "Budget not found", σ)

/-- Translation of `listTransactions` (in-memory path). -/
def listTransactions (auth0_id : String) (σ : MemStore) :
    Except String (List TxRec) × MemStore :=
  (.ok (σ.transactions auth0_id), σ)

/-- Translation of `createTransaction` (in-memory path). -/
def createTransaction (auth0_id : String) (tx : TxData) (σ : MemStore) :
    Except String TxRec × MemStore :=
  let list := σ.transactions auth0_id
  let (id, σ1) := σ.genId
  let doc : TxRec :=
    { id := id, auth0_id := auth0_id, amount := tx.amount,
      category := tx.category, date := tx.date, createdAt := σ.clock }
  (.ok doc, { σ1 with transactions := setMap σ1.transactions auth0_id (list ++ [doc]) })

/-- Translation of `updateTransaction` (in-memory path). -/
def updateTransaction (auth0_id id : String) (changes : TxPatch) (σ : MemStore) :
    Except String TxRec × MemStore :=
  let list := σ.transactions auth0_id
  let idx := list.findIdx (fun t => t.id == id)
  if h : idx < list.length then
    let updated := (list.get ⟨idx, h⟩).applyPatch changes
    (.ok updated,
      { σ with transactions := setMap σ.transactions auth0_id (list.set idx updated) })
  else (.error "Transaction not found", σ)

/-- Translation of `deleteTransaction` (in-memory path). -/
def deleteTransaction (auth0_id id : String) (σ : MemStore) :
    Except String TxRec × MemStore :=
  let list := σ.transactions auth0_id
  let idx := list.findIdx (fun t => t.id == id)
  if h : idx < list.length then
    (.ok (list.get ⟨idx, h⟩),
      { σ with transactions := setMap σ.transactions auth0_id (list.eraseIdx idx) })
  else (.error "Transaction not found", σ)

/-- Translation of `listCategories` (in-memory path). -/
def listCategories (auth0_id : String) (σ : MemStore) :
    Except String (List CategoryRec) × MemStore :=
  let (list, σ1) := ensureMemCategories auth0_id σ
  (.ok list, σ1)

/-- Translation of `createCategory` (in-memory path). -/
def createCategory (auth0_id name : String) (emojiValue : Option String)
    (σ : MemStore) : Except String CategoryRec × MemStore :=
  let trimmed := normalizeCategoryName name
  if trimmed = "" then (.error "Category name is required.", σ)
  else
    let emoji := normalizeEmojiValue emojiValue
    let (list, σ1) := ensureMemCategories auth0_id σ
    if list.any (fun c => jsToLower c.name == jsToLower trimmed) then
      (.error "Category already exists.", σ1)
    else
      let (id, σ2) := σ1.genId
      let doc : CategoryRec :=
        { id := id, auth0_id := auth0_id, name := trimmed,
          emoji := emoji, createdAt := σ1.clock, updatedAt := some σ1.clock }
      (.ok doc, { σ2 with categories := setMap σ2.categories auth0_id (list ++ [doc]) })

/-- Translation of `updateCategory` (in-memory path). -/
def updateCategory (auth0_id id : String) (updates : CategoryUpdates)
    (σ : MemStore) : Except String CategoryRec × MemStore :=
  if id = "" then (.error "Category id is required.", σ)
  else
    match updates.emoji with
    | none => (.error "Emoji update is required.", σ)
    | some emojiValue =>
        let emoji := normalizeEmojiValue emojiValue
        let (list, σ1) := ensureMemCategories auth0_id σ
        let idx := list.findIdx (fun c => c.id == id)
        if h : idx < list.length then
          let updated :=
            { list.get ⟨idx, h⟩ with
              emoji := emoji, updatedAt := some σ1.clock }
          (.ok updated,
            { σ1 with categories := setMap σ1.categories auth0_id (list.set idx updated) })
        else (.error "Category not found", σ1)

/-- Translation of `deleteCategory` (in-memory path). -/
def deleteCategory (auth0_id id : String) (σ : MemStore) :
    Except String CategoryRec × MemStore :=
  let (list, σ1) := ensureMemCategories auth0_id σ
  let idx := list.findIdx (fun c => c.id == id)
  if h : idx < list.length then
    (.ok (list.get ⟨idx, h⟩),
      { σ1 with categories := setMap σ1.categories auth0_id (list.eraseIdx idx) })
  else (.error "Category not found", σ1)

/-- Translation of `categoryExists` (in-memory path). -/
def categoryExists (auth0_id name : String) (σ : MemStore) :
    Except String Bool × MemStore :=
  let trimmed := normalizeCategoryName name
  if trimmed = "" then (.ok false, σ)
  else
    let (list, σ1) := ensureMemCategories auth0_id σ
    (.ok (list.any (fun c => jsToLower c.name == jsToLower trimmed)), σ1)


/-- Spec-side formulation of one transaction's contribution to period
spending: its coerced amount when that is a finite number strictly greater
than zero, else nothing. -/
def spendingContribution (tx : CalcTx) : ℚ :=
  match jsToNumber tx.amount with
  | some a => if 0 < a then a else 0
  | none => 0

/-- A store with no records and a fresh id supply. -/
def emptyStore : MemStore where
  users := fun _ => none
  budgets := fun _ => []
  transactions := fun _ => []
  categories := fun _ => []
  nextId := 0
  clock := 0

/-- A store whose owner "u" has the single category "Groceries". -/
def storeWithGroceries : MemStore :=
  { emptyStore with
    categories := setMap emptyStore.categories "u"
      [⟨idOf 0, "u", "Groceries", none, 0, none⟩],
    nextId := 1 }

/-- Modelled from the spec's glossary: a grapheme cluster is a
user-perceived character, possibly several code points.  This segmentation
implements the Unicode rule relevant here: a pair of Regional Indicator
symbols forms one cluster (a flag emoji); every other code point stands
alone. -/
def isRegionalIndicator (c : Char) : Bool :=
  0x1F1E6 ≤ c.toNat && c.toNat ≤ 0x1F1FF

/-- Modelled from the spec: grapheme-cluster segmentation of a code-point
sequence (restricted to the regional-indicator pairing rule). -/
def graphemeClusters : List Char → List (List Char)
  | [] => []
  | [c] => [[c]]
  | c :: d :: rest =>
      if isRegionalIndicator c && isRegionalIndicator d then
        [c, d] :: graphemeClusters rest
      else [c] :: graphemeClusters (d :: rest)

/-- Four flag emoji (regional-indicator pairs AC, AD, AE, AF): 8 code
points forming 4 grapheme clusters. -/
def fourFlags : String :=
  ⟨[Char.ofNat 0x1F1E6, Char.ofNat 0x1F1E8, Char.ofNat 0x1F1E6, Char.ofNat 0x1F1E9,
    Char.ofNat 0x1F1E6, Char.ofNat 0x1F1EA, Char.ofNat 0x1F1E6, Char.ofNat 0x1F1EB]⟩

/-- A store for owner "u" with one budget, one transaction and one
category, all ids drawn from the supply. -/
def storeOneEach : MemStore where
  users := fun _ => none
  budgets := fun k => if k = "u" then [⟨idOf 0, "u", some "monthly", .num 100, 0⟩] else []
  transactions := fun k =>
    if k = "u" then [⟨idOf 1, "u", .num 5, some "Groceries", none, 0⟩] else []
  categories := fun k => if k = "u" then [⟨idOf 2, "u", "Transit", none, 0, none⟩] else []
  nextId := 3
  clock := 0


/-! ## Calendar arithmetic lemmas -/

/-- Constructor form of `prevDay`. -/
theorem prevDay_eq (d : CivilDate) :
    prevDay d =
      if 1 < d.day then ⟨d.year, d.month, d.day - 1, d.msOfDay⟩
      else if 0 < d.month then
        ⟨d.year, d.month - 1, daysInMonth d.year (d.month - 1), d.msOfDay⟩
      else ⟨d.year - 1, 11, 31, d.msOfDay⟩ := rfl

/-- Crossing January 1 backwards: one year before, `365 + leap` days
earlier. -/
theorem daysBeforeYear_sub (y : Int) :
    daysBeforeYear y = daysBeforeYear (y - 1) + 365 + leapOffset (y - 1) := by
  by_cases h4 : (y - 1) % 4 = 0 <;>
  by_cases h100 : (y - 1) % 100 = 0 <;>
  by_cases h400 : (y - 1) % 400 = 0 <;>
  simp only [daysBeforeYear, leapOffset, isLeap, h4, h100, h400, beq_iff_eq, bne_iff_ne,
    Bool.or_eq_true, Bool.and_eq_true, decide_eq_true_eq, ne_eq, not_true_eq_false,
    not_false_eq_true, if_true, if_false, and_true, and_false, or_true, or_false,
    true_and, false_and, true_or, false_or, ite_true, ite_false] <;>
  omega

/-- Cumulative month offsets agree with month lengths. -/
theorem daysBeforeMonth_succ (y : Int) (m : Nat) (h1 : 0 < m) (h2 : m ≤ 11) :
    daysBeforeMonth y m = daysBeforeMonth y (m - 1) + (daysInMonth y (m - 1) : Int) := by
  interval_cases m <;>
    simp only [daysBeforeMonth, daysInMonth, leapOffset] <;>
    first
      | omega
      | (split <;> simp)

/-- Every month has at least 28 days. -/
theorem daysInMonth_pos (y : Int) (m : Nat) : 28 ≤ daysInMonth y m := by
  unfold daysInMonth
  split <;> first | omega | (split <;> omega)

/-- Day number of an explicit civil timestamp. -/
theorem dayNumber_mk (y : Int) (m dd ms : Nat) :
    dayNumber (CivilDate.mk y m dd ms) =
      daysBeforeYear y + daysBeforeMonth y m + (dd : Int) - 1 - daysBeforeYear 1970 := rfl

/-- Validity of an explicit civil timestamp. -/
theorem valid_mk (y : Int) (m dd ms : Nat) :
    (CivilDate.mk y m dd ms).Valid ↔ (m ≤ 11 ∧ 1 ≤ dd ∧ dd ≤ daysInMonth y m) :=
  Iff.rfl

/-- Going one civil day back decreases the day number by one, preserves
validity and preserves the time-of-day. -/
theorem prevDay_spec (d : CivilDate) (hv : d.Valid) :
    dayNumber (prevDay d) = dayNumber d - 1 ∧ (prevDay d).Valid ∧
      (prevDay d).msOfDay = d.msOfDay := by
  obtain ⟨hm, hd1, hd2⟩ := hv
  rw [prevDay_eq]
  by_cases h : 1 < d.day
  · rw [if_pos h]
    refine ⟨?_, ?_, rfl⟩
    · simp only [dayNumber_mk, dayNumber]
      omega
    · rw [valid_mk]
      exact ⟨hm, by omega, by omega⟩
  · rw [if_neg h]
    by_cases h0 : 0 < d.month
    · rw [if_pos h0]
      have hmm := daysBeforeMonth_succ d.year d.month h0 hm
      have hpos := daysInMonth_pos d.year (d.month - 1)
      refine ⟨?_, ?_, rfl⟩
      · simp only [dayNumber_mk, dayNumber]
        omega
      · rw [valid_mk]
        exact ⟨by omega, by omega, le_refl _⟩
    · rw [if_neg h0]
      have hm0 : d.month = 0 := by omega
      have hy := daysBeforeYear_sub d.year
      refine ⟨?_, ?_, rfl⟩
      · simp only [dayNumber_mk, dayNumber, hm0, daysBeforeMonth]
        omega
      · rw [valid_mk]
        refine ⟨by omega, by omega, ?_⟩
        simp [daysInMonth]

/-- Iterating `prevDay` subtracts from the day number, preserves validity
and the time-of-day. -/
theorem subDays_spec (n : Nat) (d : CivilDate) (hv : d.Valid) :
    dayNumber (subDays n d) = dayNumber d - n ∧ (subDays n d).Valid ∧
      (subDays n d).msOfDay = d.msOfDay := by
  induction n generalizing d with
  | zero => simpa [subDays] using hv
  | succ k ih =>
    obtain ⟨hp1, hp2, hp3⟩ := prevDay_spec d hv
    obtain ⟨ih1, ih2, ih3⟩ := ih (prevDay d) hp2
    have hiter : subDays (k + 1) d = subDays k (prevDay d) := by
      simp [subDays, Function.iterate_succ_apply]
    rw [hiter]
    refine ⟨by omega, ih2, by omega⟩

/-- Changing only the time-of-day keeps the day number. -/
theorem dayNumber_msOfDay (d : CivilDate) (ms : Nat) :
    dayNumber { d with msOfDay := ms } = dayNumber d := rfl


/-- Weekly branch of the period start in closed form. -/
theorem getCurrentPeriodStart_weekly (now : CivilDate) :
    getCurrentPeriodStart (some "weekly") now =
      { subDays ((weekday now + 6) % 7).toNat now with msOfDay := 0 } := rfl

/-- Non-weekly period values all produce the month start. -/
theorem getCurrentPeriodStart_other (now : CivilDate) (p : Option String)
    (hp : p ≠ some "weekly") :
    getCurrentPeriodStart p now = ⟨now.year, now.month, 1, 0⟩ := by
  simp only [getCurrentPeriodStart, if_neg hp, ite_self]

/-- C4: at every valid evaluation instant, the weekly period start is the
most recent Monday at local midnight — it lies exactly
`(getDay() + 6) % 7` days back from today, its weekday is Monday (1) and
its time-of-day is zero; the monthly period start is the 1st of the
current month at local midnight; and every other period value, a missing
one included, produces the same instant as `"monthly"`. -/
theorem getCurrentPeriodStart_spec (now : CivilDate) (hv : now.Valid) :
    (weekday (getCurrentPeriodStart (some "weekly") now) = 1 ∧
      (getCurrentPeriodStart (some "weekly") now).msOfDay = 0 ∧
      dayNumber (getCurrentPeriodStart (some "weekly") now) =
        dayNumber now - (weekday now + 6) % 7 ∧
      (getCurrentPeriodStart (some "weekly") now).Valid) ∧
    getCurrentPeriodStart (some "monthly") now = ⟨now.year, now.month, 1, 0⟩ ∧
    (∀ p : Option String, p ≠ some "weekly" →
      getCurrentPeriodStart p now = getCurrentPeriodStart (some "monthly") now) := by
  have hmon := getCurrentPeriodStart_other now (some "monthly") (by simp)
  refine ⟨?_, hmon, fun p hp => (getCurrentPeriodStart_other now p hp).trans hmon.symm⟩
  have hnn : (0 : Int) ≤ (weekday now + 6) % 7 :=
    Int.emod_nonneg _ (by norm_num)
  have hcast : (((weekday now + 6) % 7).toNat : Int) = (weekday now + 6) % 7 :=
    Int.toNat_of_nonneg hnn
  obtain ⟨hs1, hs2, hs3⟩ := subDays_spec ((weekday now + 6) % 7).toNat now hv
  rw [getCurrentPeriodStart_weekly]
  have hdn : dayNumber { subDays ((weekday now + 6) % 7).toNat now with msOfDay := 0 } =
      dayNumber now - (weekday now + 6) % 7 := by
    rw [dayNumber_msOfDay, hs1, hcast]
  refine ⟨?_, rfl, hdn, ?_⟩
  · rw [weekday, hdn, weekday]
    omega
  · obtain ⟨a, b, c⟩ := hs2
    exact ⟨a, b, c⟩

/-- Witness for C4 at 2026-10-12 (a Monday), 07:07:07.777 local time. -/
theorem getCurrentPeriodStart_spec_witness :
    (⟨2026, 9, 12, 25627777⟩ : CivilDate).Valid ∧
    ((weekday (getCurrentPeriodStart (some "weekly") ⟨2026, 9, 12, 25627777⟩) = 1 ∧
      (getCurrentPeriodStart (some "weekly") ⟨2026, 9, 12, 25627777⟩).msOfDay = 0 ∧
      dayNumber (getCurrentPeriodStart (some "weekly") ⟨2026, 9, 12, 25627777⟩) =
        dayNumber ⟨2026, 9, 12, 25627777⟩ -
          (weekday ⟨2026, 9, 12, 25627777⟩ + 6) % 7 ∧
      (getCurrentPeriodStart (some "weekly") ⟨2026, 9, 12, 25627777⟩).Valid) ∧
    getCurrentPeriodStart (some "monthly") ⟨2026, 9, 12, 25627777⟩ = ⟨2026, 9, 1, 0⟩ ∧
    (∀ p : Option String, p ≠ some "weekly" →
      getCurrentPeriodStart p ⟨2026, 9, 12, 25627777⟩ =
        getCurrentPeriodStart (some "monthly") ⟨2026, 9, 12, 25627777⟩)) :=
  ⟨by decide, getCurrentPeriodStart_spec ⟨2026, 9, 12, 25627777⟩ (by decide)⟩

/-- Date comparison against the period start succeeds exactly on valid
instants at or after it. -/
theorem jsDateGE_iff (d : JsDate) (s : Int) :
    jsDateGE d s = true ↔ ∃ t : Int, d = some t ∧ s ≤ t := by
  cases d with
  | none => simp [jsDateGE]
  | some t => simp [jsDateGE]

/-- C8: a transaction is kept by `filterTransactionsByPeriod` exactly when
it is in the input and its `date` value — falling back to `createdAt` when
`date` is absent — is a valid instant at or after the period start;
transactions lacking both fields or with unparsable dates are excluded,
never an error. -/
theorem filterTransactionsByPeriod_spec (now : CivilDate) (txs : List CalcTx)
    (p : Option String) (tx : CalcTx) :
    tx ∈ filterTransactionsByPeriod now txs p ↔
      tx ∈ txs ∧ ∃ t : Int, effectiveDate tx = some t ∧
        toInstant (getCurrentPeriodStart p now) ≤ t := by
  simp only [filterTransactionsByPeriod, List.mem_filter, jsDateGE_iff]

/-- The reduce-accumulator of `calculateCurrentPeriodSpending` computes the
sum of the per-transaction contributions. -/
theorem foldl_addSpending (l : List CalcTx) (q : ℚ) :
    l.foldl addSpending q = q + (l.map spendingContribution).sum := by
  induction l generalizing q with
  | nil => simp
  | cons hd tl ih =>
    rw [List.foldl_cons, ih, List.map_cons, List.sum_cons]
    unfold addSpending spendingContribution
    cases h : jsToNumber hd.amount with
    | none => simp
    | some a =>
      by_cases ha : 0 < a
      · simp only [if_pos ha]
        ring
      · simp only [if_neg ha]
        ring

/-- The deduplicated period list contains `"weekly"` exactly when some
budget has that period. -/
theorem weekly_mem_iff (bs : List CalcBudget) :
    ((some "weekly") ∈
      (if ((bs.map (fun b => b.period)).dedup).isEmpty then [(some "monthly")]
       else (bs.map (fun b => b.period)).dedup)) ↔
      bs.any (fun b => b.period == some "weekly") = true := by
  by_cases h : ((bs.map (fun b => b.period)).dedup).isEmpty
  · have h3 : (bs.map (fun b => b.period)) = [] := by
      rw [← List.dedup_eq_nil]
      exact List.isEmpty_iff.mp h
    have hnil : bs = [] := List.map_eq_nil_iff.mp h3
    subst hnil
    decide
  · simp only [if_neg h, List.mem_dedup, List.mem_map, List.any_eq_true, beq_iff_eq]

/-- The month start never lies after the current instant. -/
theorem toInstant_monthStart_le (now : CivilDate) (hv : now.Valid) :
    toInstant (getCurrentPeriodStart (some "monthly") now) ≤ toInstant now := by
  rw [getCurrentPeriodStart_other now (some "monthly") (by simp)]
  have h1 := hv.2.1
  simp only [toInstant, dayNumber_mk, dayNumber]
  omega

/-- C3: `calculateCurrentPeriodSpending` uses `"weekly"` as the active
period when any budget has it and `"monthly"` otherwise (an empty budget
list included), and sums exactly the per-transaction contributions of the
transactions passing `filterTransactionsByPeriod` — only finite amounts
strictly greater than zero count, all other amounts contribute nothing and
raise no error — so the spec example list of amounts
`50, "bad", -5, null`, all dated in-period, against one monthly budget
yields `50`. -/
theorem calculateCurrentPeriodSpending_spec (now : CivilDate) (hv : now.Valid)
    (txs : List CalcTx) (budgets : List CalcBudget) :
    (calculateCurrentPeriodSpending now txs budgets =
      ((filterTransactionsByPeriod now txs
          (some (if budgets.any (fun b => b.period == some "weekly") then "weekly"
                 else "monthly"))).map spendingContribution).sum) ∧
    calculateCurrentPeriodSpending now
        [⟨.num 50, some (some (toInstant now)), none⟩,
         ⟨.str "bad", some (some (toInstant now)), none⟩,
         ⟨.num (-5), some (some (toInstant now)), none⟩,
         ⟨.null, some (some (toInstant now)), none⟩]
        [⟨some "monthly", .num 500⟩] = 50 := by
  have hmain : ∀ (ts : List CalcTx) (bs : List CalcBudget),
      calculateCurrentPeriodSpending now ts bs =
        ((filterTransactionsByPeriod now ts
            (some (if bs.any (fun b => b.period == some "weekly") then "weekly"
                   else "monthly"))).map spendingContribution).sum := by
    intro ts bs
    simp only [calculateCurrentPeriodSpending]
    rw [foldl_addSpending, zero_add, if_congr (weekly_mem_iff bs) rfl rfl]
  refine ⟨hmain txs budgets, ?_⟩
  rw [hmain]
  have hb : (if ([(⟨some "monthly", .num 500⟩ : CalcBudget)].any
      (fun b => b.period == some "weekly")) then "weekly" else "monthly") = "monthly" := rfl
  rw [hb]
  have hle := toInstant_monthStart_le now hv
  have hfilter : filterTransactionsByPeriod now
      [⟨.num 50, some (some (toInstant now)), none⟩,
       ⟨.str "bad", some (some (toInstant now)), none⟩,
       ⟨.num (-5), some (some (toInstant now)), none⟩,
       ⟨.null, some (some (toInstant now)), none⟩] (some "monthly") =
      [⟨.num 50, some (some (toInstant now)), none⟩,
       ⟨.str "bad", some (some (toInstant now)), none⟩,
       ⟨.num (-5), some (some (toInstant now)), none⟩,
       ⟨.null, some (some (toInstant now)), none⟩] := by
    simp only [filterTransactionsByPeriod]
    apply List.filter_eq_self.mpr
    intro tx htx
    simp only [List.mem_cons, List.not_mem_nil, or_false] at htx
    rcases htx with rfl | rfl | rfl | rfl <;>
      simpa [jsDateGE, effectiveDate] using hle
  rw [hfilter]
  have hbad : jsStringToNumber "bad" = none := rfl
  simp only [List.map_cons, List.map_nil, List.sum_cons, List.sum_nil,
    spendingContribution, jsToNumber, hbad]
  norm_num

/-- Witness for C3 at 2026-10-12 local midnight, on the spec's example
transaction list and single monthly budget. -/
theorem calculateCurrentPeriodSpending_spec_witness :
    (⟨2026, 9, 12, 0⟩ : CivilDate).Valid ∧
    ((calculateCurrentPeriodSpending ⟨2026, 9, 12, 0⟩
        [⟨.num 50, some (some (toInstant ⟨2026, 9, 12, 0⟩)), none⟩,
         ⟨.str "bad", some (some (toInstant ⟨2026, 9, 12, 0⟩)), none⟩,
         ⟨.num (-5), some (some (toInstant ⟨2026, 9, 12, 0⟩)), none⟩,
         ⟨.null, some (some (toInstant ⟨2026, 9, 12, 0⟩)), none⟩]
        [⟨some "monthly", .num 500⟩] =
      ((filterTransactionsByPeriod ⟨2026, 9, 12, 0⟩
          [⟨.num 50, some (some (toInstant ⟨2026, 9, 12, 0⟩)), none⟩,
           ⟨.str "bad", some (some (toInstant ⟨2026, 9, 12, 0⟩)), none⟩,
           ⟨.num (-5), some (some (toInstant ⟨2026, 9, 12, 0⟩)), none⟩,
           ⟨.null, some (some (toInstant ⟨2026, 9, 12, 0⟩)), none⟩]
          (some (if ([(⟨some "monthly", .num 500⟩ : CalcBudget)].any
                      (fun b => b.period == some "weekly")) then "weekly"
                 else "monthly"))).map spendingContribution).sum) ∧
     calculateCurrentPeriodSpending ⟨2026, 9, 12, 0⟩
        [⟨.num 50, some (some (toInstant ⟨2026, 9, 12, 0⟩)), none⟩,
         ⟨.str "bad", some (some (toInstant ⟨2026, 9, 12, 0⟩)), none⟩,
         ⟨.num (-5), some (some (toInstant ⟨2026, 9, 12, 0⟩)), none⟩,
         ⟨.null, some (some (toInstant ⟨2026, 9, 12, 0⟩)), none⟩]
        [⟨some "monthly", .num 500⟩] = 50) :=
  ⟨by decide,
    calculateCurrentPeriodSpending_spec ⟨2026, 9, 12, 0⟩ (by decide)
      [⟨.num 50, some (some (toInstant ⟨2026, 9, 12, 0⟩)), none⟩,
       ⟨.str "bad", some (some (toInstant ⟨2026, 9, 12, 0⟩)), none⟩,
       ⟨.num (-5), some (some (toInstant ⟨2026, 9, 12, 0⟩)), none⟩,
       ⟨.null, some (some (toInstant ⟨2026, 9, 12, 0⟩)), none⟩]
      [⟨some "monthly", .num 500⟩]⟩

/-! ## Store theorems -/

/-- C1: creating a category whose trimmed name matches, case-insensitively,
the name of a category already stored for that owner fails with the
conflict error "Category already exists." and leaves the store — in
particular the owner's category collection — unchanged. -/
theorem createCategory_conflict (σ : MemStore) (owner name : String)
    (emojiValue : Option String)
    (hname : normalizeCategoryName name ≠ "")
    (hdup : ∃ c ∈ σ.categories owner,
      jsToLower c.name = jsToLower (normalizeCategoryName name)) :
    createCategory owner name emojiValue σ = (.error "Category already exists.", σ) := by
  obtain ⟨c, hc, hlow⟩ := hdup
  have hne : σ.categories owner ≠ [] := by
    intro h
    rw [h] at hc
    exact (List.not_mem_nil c) hc
  have hens : ensureMemCategories owner σ = (σ.categories owner, σ) := by
    unfold ensureMemCategories
    rw [if_pos hne]
  have hany : (σ.categories owner).any
      (fun c => jsToLower c.name == jsToLower (normalizeCategoryName name)) = true :=
    List.any_eq_true.mpr ⟨c, hc, beq_iff_eq.mpr hlow⟩
  simp only [createCategory, if_neg hname, hens, hany, if_true]

/-- Witness for C1: owner "u" already stores "Groceries"; creating
" gROceries " conflicts. -/
theorem createCategory_conflict_witness :
    (normalizeCategoryName " gROceries " ≠ "" ∧
     ∃ c ∈ storeWithGroceries.categories "u",
       jsToLower c.name = jsToLower (normalizeCategoryName " gROceries ")) ∧
    createCategory "u" " gROceries " (some "e") storeWithGroceries =
      (.error "Category already exists.", storeWithGroceries) :=
  ⟨⟨by decide, by decide⟩,
    createCategory_conflict storeWithGroceries "u" " gROceries " (some "e")
      (by decide) (by decide)⟩

/-- C2 counterexample: `fourFlags` trims to itself and has 4 grapheme
clusters, more than 3, yet the stored emoji is not the first 3 clusters —
the code truncates `Array.from(trimmed)`, i.e. code points, so it cuts the
second flag in half. -/
theorem normalizeEmojiValue_not_grapheme_truncation :
    3 < (graphemeClusters (jsTrim fourFlags).data).length ∧
    normalizeEmojiValue (some fourFlags) ≠
      some ⟨((graphemeClusters (jsTrim fourFlags).data).take 3).flatten⟩ := by
  constructor
  · decide
  · decide

/-- C2 (amended): null, undefined and blank-after-trim emoji inputs are
stored as null; any other input is stored as the first 3 Unicode code
points (not UTF-16 code units, and not grapheme clusters) of the trimmed
input, so an input longer than 3 code points is stored as exactly its
first 3 code points. -/
theorem normalizeEmojiValue_spec (v : String) (h : ¬ (jsTrim v).data.isEmpty) :
    normalizeEmojiValue none = none ∧
    (∀ w : String, (jsTrim w).data.isEmpty → normalizeEmojiValue (some w) = none) ∧
    normalizeEmojiValue (some v) = some ⟨(jsTrim v).data.take 3⟩ ∧
    (3 < (jsTrim v).data.length → ((jsTrim v).data.take 3).length = 3) := by
  refine ⟨rfl, ?_, ?_, ?_⟩
  · intro w hw
    simp [normalizeEmojiValue, hw]
  · simp [normalizeEmojiValue, h]
  · intro h3
    simp only [List.length_take]
    omega

/-- Witness for C2 (amended) on the four-flag input. -/
theorem normalizeEmojiValue_spec_witness :
    (¬ (jsTrim fourFlags).data.isEmpty) ∧
    (normalizeEmojiValue none = none ∧
     (∀ w : String, (jsTrim w).data.isEmpty → normalizeEmojiValue (some w) = none) ∧
     normalizeEmojiValue (some fourFlags) = some ⟨(jsTrim fourFlags).data.take 3⟩ ∧
     (3 < (jsTrim fourFlags).data.length →
       ((jsTrim fourFlags).data.take 3).length = 3)) :=
  ⟨by decide, normalizeEmojiValue_spec fourFlags (by decide)⟩

/-- Seeding an owner expands to five explicit default records. -/
theorem seeded_eq (owner : String) (n : Nat) (clk : Int) :
    DEFAULT_CATEGORIES.enum.map (fun p =>
      ({ id := idOf (n + p.1), auth0_id := owner, name := p.2,
         emoji := none, createdAt := clk, updatedAt := none } : CategoryRec)) =
      [⟨idOf (n + 0), owner, "Groceries", none, clk, none⟩,
       ⟨idOf (n + 1), owner, "Takeout", none, clk, none⟩,
       ⟨idOf (n + 2), owner, "Utilities", none, clk, none⟩,
       ⟨idOf (n + 3), owner, "Electronics", none, clk, none⟩,
       ⟨idOf (n + 4), owner, "Other", none, clk, none⟩] := rfl

/-- C5: for an owner with zero stored categories the first `listCategories`
call returns exactly the five default categories in their defined order
with emoji unset, and a second call returns the very same records again —
no duplication. -/
theorem listCategories_seeds_defaults (σ : MemStore) (owner : String)
    (h : σ.categories owner = []) :
    ∃ l σ1, listCategories owner σ = (.ok l, σ1) ∧
      l.map (fun c => c.name) = DEFAULT_CATEGORIES ∧
      (∀ c ∈ l, c.emoji = none) ∧
      l.length = 5 ∧
      listCategories owner σ1 = (.ok l, σ1) := by
  have hens : ensureMemCategories owner σ =
      ([⟨idOf (σ.nextId + 0), owner, "Groceries", none, σ.clock, none⟩,
        ⟨idOf (σ.nextId + 1), owner, "Takeout", none, σ.clock, none⟩,
        ⟨idOf (σ.nextId + 2), owner, "Utilities", none, σ.clock, none⟩,
        ⟨idOf (σ.nextId + 3), owner, "Electronics", none, σ.clock, none⟩,
        ⟨idOf (σ.nextId + 4), owner, "Other", none, σ.clock, none⟩],
       { σ with
         categories := setMap σ.categories owner
           [⟨idOf (σ.nextId + 0), owner, "Groceries", none, σ.clock, none⟩,
            ⟨idOf (σ.nextId + 1), owner, "Takeout", none, σ.clock, none⟩,
            ⟨idOf (σ.nextId + 2), owner, "Utilities", none, σ.clock, none⟩,
            ⟨idOf (σ.nextId + 3), owner, "Electronics", none, σ.clock, none⟩,
            ⟨idOf (σ.nextId + 4), owner, "Other", none, σ.clock, none⟩],
         nextId := σ.nextId + 5 }) := by
    unfold ensureMemCategories
    rw [h]
    simp only [ne_eq, not_true_eq_false, if_false, ite_false, seeded_eq]
    rfl
  refine ⟨[⟨idOf (σ.nextId + 0), owner, "Groceries", none, σ.clock, none⟩,
        ⟨idOf (σ.nextId + 1), owner, "Takeout", none, σ.clock, none⟩,
        ⟨idOf (σ.nextId + 2), owner, "Utilities", none, σ.clock, none⟩,
        ⟨idOf (σ.nextId + 3), owner, "Electronics", none, σ.clock, none⟩,
        ⟨idOf (σ.nextId + 4), owner, "Other", none, σ.clock, none⟩],
    { σ with
         categories := setMap σ.categories owner
           [⟨idOf (σ.nextId + 0), owner, "Groceries", none, σ.clock, none⟩,
            ⟨idOf (σ.nextId + 1), owner, "Takeout", none, σ.clock, none⟩,
            ⟨idOf (σ.nextId + 2), owner, "Utilities", none, σ.clock, none⟩,
            ⟨idOf (σ.nextId + 3), owner, "Electronics", none, σ.clock, none⟩,
            ⟨idOf (σ.nextId + 4), owner, "Other", none, σ.clock, none⟩],
         nextId := σ.nextId + 5 }, ?_, ?_, ?_, ?_, ?_⟩
  · simp only [listCategories, hens]
  · rfl
  · intro c hc
    simp only [List.mem_cons, List.not_mem_nil, or_false] at hc
    rcases hc with rfl | rfl | rfl | rfl | rfl <;> rfl
  · rfl
  · simp only [listCategories, ensureMemCategories, setMap]
    simp

/-- Witness for C5 on the brand-new owner "u" of the empty store. -/
theorem listCategories_seeds_defaults_witness :
    emptyStore.categories "u" = [] ∧
    (∃ l σ1, listCategories "u" emptyStore = (.ok l, σ1) ∧
      l.map (fun c => c.name) = DEFAULT_CATEGORIES ∧
      (∀ c ∈ l, c.emoji = none) ∧
      l.length = 5 ∧
      listCategories "u" σ1 = (.ok l, σ1)) :=
  ⟨rfl, listCategories_seeds_defaults emptyStore "u" rfl⟩

/-- C6 counterexample: `upsertUser` with an empty ownerId does not fail at
all — it succeeds with `{user: null, created: false}` and an unchanged
store, rather than raising any validation error. -/
theorem upsertUser_empty_owner_no_error :
    upsertUser "" (some "user@example.com") emptyStore =
      (.ok ⟨none, false⟩, emptyStore) ∧
    ∀ msg : String, (upsertUser "" (some "user@example.com") emptyStore).1 ≠ .error msg := by
  refine ⟨rfl, ?_⟩
  intro msg
  simp [upsertUser]

/-- C6 (amended): for every email argument and every store, `upsertUser`
with an empty ownerId does not fail: it returns user `null` with
`created = false`, and the user store is unchanged. -/
theorem upsertUser_empty_owner (email : Option String) (σ : MemStore) :
    upsertUser "" email σ = (.ok ⟨none, false⟩, σ) := rfl

/-- Element found by `findIdx` satisfies the predicate. -/
theorem findIdx_prop {α : Type} (p : α → Bool) (l : List α)
    (h : l.findIdx p < l.length) : p (l.get ⟨l.findIdx p, h⟩) = true := by
  induction l with
  | nil => simp at h
  | cons a t ih =>
    by_cases hp : p a
    · simp [List.findIdx_cons, hp]
    · simp only [List.findIdx_cons, hp, cond_false, List.length_cons] at h ⊢
      have h2 : t.findIdx p < t.length := by omega
      have := ih h2
      simpa using this

/-- With no satisfying element, `findIdx` runs off the end. -/
theorem findIdx_of_none {α : Type} (p : α → Bool) (l : List α)
    (h : ∀ x ∈ l, p x = false) : l.findIdx p = l.length := by
  induction l with
  | nil => simp
  | cons a t ih =>
    have ha := h a (List.mem_cons_self a t)
    simp only [List.findIdx_cons, ha, cond_false, List.length_cons]
    rw [ih (fun x hx => h x (List.mem_cons_of_mem a hx))]

/-- `find?` returns the element sitting at `findIdx`. -/
theorem find?_findIdx {α : Type} (p : α → Bool) (l : List α)
    (h : l.findIdx p < l.length) :
    l.find? p = some (l.get ⟨l.findIdx p, h⟩) := by
  induction l with
  | nil => simp at h
  | cons a t ih =>
    by_cases hp : p a
    · simp [List.find?_cons, hp, List.findIdx_cons]
    · simp only [List.find?_cons, hp, List.findIdx_cons, cond_false, List.length_cons] at h ⊢
      have h2 : t.findIdx p < t.length := by omega
      have := ih h2
      simpa using this

/-- Erasing the first match removes exactly one satisfying element. -/
theorem countP_eraseIdx_findIdx {α : Type} (p : α → Bool) (l : List α)
    (h : l.findIdx p < l.length) :
    (l.eraseIdx (l.findIdx p)).countP p = l.countP p - 1 := by
  induction l with
  | nil => simp at h
  | cons a t ih =>
    by_cases hp : p a
    · simp [List.findIdx_cons, hp, List.countP_cons]
    · simp only [List.findIdx_cons, hp, cond_false, List.length_cons] at h ⊢
      have h2 : t.findIdx p < t.length := by omega
      have := ih h2
      simp only [List.eraseIdx_cons_succ, List.countP_cons, hp, Bool.false_eq_true,
        if_false]
      omega

/-- A positive count means `findIdx` finds something. -/
theorem findIdx_lt_of_countP_pos {α : Type} (p : α → Bool) (l : List α)
    (h : 0 < l.countP p) : l.findIdx p < l.length := by
  induction l with
  | nil => simp at h
  | cons a t ih =>
    by_cases hp : p a
    · simp [List.findIdx_cons, hp]
    · simp only [List.countP_cons, hp, Bool.false_eq_true, if_false, Nat.add_zero] at h
      simp only [List.findIdx_cons, hp, cond_false, List.length_cons]
      have := ih h
      omega

/-- C7: with a nonempty category id, `updateCategory` fails with the
validation error "Emoji update is required." exactly when the payload has
no `emoji` key; a payload whose `emoji` key is present with value null is
accepted; and a successful update only ever changes the category's emoji
(plus its `updatedAt` timestamp): id, owner, name and `createdAt` are
those of a stored record with that id, unchanged. -/
theorem updateCategory_requires_emoji (σ : MemStore) (owner id0 : String)
    (upd : CategoryUpdates) (hid : id0 ≠ "") :
    ((updateCategory owner id0 upd σ).1 = .error "Emoji update is required." ↔
      upd.emoji = none) ∧
    (∀ ev r σ1, upd.emoji = some ev →
      updateCategory owner id0 upd σ = (.ok r, σ1) →
      r.emoji = normalizeEmojiValue ev ∧
      ∃ old ∈ (ensureMemCategories owner σ).1,
        old.id = id0 ∧ r.id = old.id ∧ r.name = old.name ∧
        r.auth0_id = old.auth0_id ∧ r.createdAt = old.createdAt) := by
  rcases hupd : upd.emoji with _ | ev0
  · constructor
    · simp [updateCategory, if_neg hid, hupd]
    · intro ev r σ1 hev
      exact absurd hev (by simp)
  · rcases hE : ensureMemCategories owner σ with ⟨list, σE⟩
    by_cases hidx : list.findIdx (fun c => c.id == id0) < list.length
    · have hred : updateCategory owner id0 upd σ =
          (.ok
            { list.get ⟨list.findIdx (fun c => c.id == id0), hidx⟩ with
              emoji := normalizeEmojiValue ev0, updatedAt := some σE.clock },
           { σE with
             categories :=
               setMap σE.categories owner
                 (list.set (list.findIdx (fun c => c.id == id0))
                   { list.get ⟨list.findIdx (fun c => c.id == id0), hidx⟩ with
                     emoji := normalizeEmojiValue ev0,
                     updatedAt := some σE.clock }) }) := by
        simp only [updateCategory, if_neg hid, hupd, hE, dif_pos hidx]
        simp [hE]
      constructor
      · rw [hred]
        simp [hupd]
      · intro ev r σ1 hev heq
        injection hev with hev
        subst hev
        rw [hred] at heq
        simp only [Prod.mk.injEq, Except.ok.injEq] at heq
        obtain ⟨hr, hs⟩ := heq
        subst hr
        refine ⟨rfl, list.get ⟨list.findIdx (fun c => c.id == id0), hidx⟩,
          ?_, ?_, rfl, rfl, rfl, rfl⟩
        · show _ ∈ (list, σE).1
          apply List.get_mem
        · have := findIdx_prop (fun c => c.id == id0) list hidx
          exact beq_iff_eq.mp this
    · have hred : updateCategory owner id0 upd σ = (.error "Category not found", σE) := by
        simp [updateCategory, if_neg hid, hupd, hE, dif_neg hidx]
        intro x hx hxid
        apply hidx
        apply findIdx_lt_of_countP_pos
        exact List.countP_pos_iff.mpr ⟨x, hx, beq_iff_eq.mpr hxid⟩
      constructor
      · rw [hred]
        simp [hupd]
      · intro ev r σ1 hev heq
        rw [hred] at heq
        exact absurd heq (by simp)

/-- Witness for C7 on the store holding "Groceries": a payload with an
explicit null emoji key is accepted; the update changes only the emoji. -/
theorem updateCategory_requires_emoji_witness :
    ((idOf 0 : String) ≠ "") ∧
    (((updateCategory "u" (idOf 0) ⟨some none⟩ storeWithGroceries).1 =
        .error "Emoji update is required." ↔ (⟨some none⟩ : CategoryUpdates).emoji = none) ∧
     (∀ ev r σ1, (⟨some none⟩ : CategoryUpdates).emoji = some ev →
       updateCategory "u" (idOf 0) ⟨some none⟩ storeWithGroceries = (.ok r, σ1) →
       r.emoji = normalizeEmojiValue ev ∧
       ∃ old ∈ (ensureMemCategories "u" storeWithGroceries).1,
         old.id = idOf 0 ∧ r.id = old.id ∧ r.name = old.name ∧
         r.auth0_id = old.auth0_id ∧ r.createdAt = old.createdAt)) :=
  ⟨by decide, updateCategory_requires_emoji storeWithGroceries "u" (idOf 0) ⟨some none⟩
    (by decide)⟩

/-- The id supply never repeats. -/
theorem idOf_inj {m n : Nat} (h : idOf m = idOf n) : m = n := by
  have h1 : (List.replicate (m + 1) 'i') = (List.replicate (n + 1) 'i') :=
    congrArg String.data h
  have h2 := congrArg List.length h1
  simp only [List.length_replicate] at h2
  omega

/-- Ids drawn from the supply are never the empty string. -/
theorem idOf_ne_empty (k : Nat) : idOf k ≠ "" := by
  intro h
  have h1 : (List.replicate (k + 1) 'i') = ([] : List Char) := congrArg String.data h
  simp at h1

/-- A unique match can be removed: `find?` returns it, and afterwards no
match remains. -/
theorem removeFirst_then_none {α : Type} (p : α → Bool) (l : List α)
    (h : l.countP p = 1) :
    ∃ hidx : l.findIdx p < l.length,
      l.find? p = some (l.get ⟨l.findIdx p, hidx⟩) ∧
      (l.eraseIdx (l.findIdx p)).countP p = 0 ∧
      (l.eraseIdx (l.findIdx p)).findIdx p = (l.eraseIdx (l.findIdx p)).length := by
  have hidx := findIdx_lt_of_countP_pos p l (by omega)
  have hcnt0 : (l.eraseIdx (l.findIdx p)).countP p = 0 := by
    rw [countP_eraseIdx_findIdx p l hidx]
    omega
  refine ⟨hidx, find?_findIdx p l hidx, hcnt0, ?_⟩
  apply findIdx_of_none
  intro x hx
  by_contra hpx
  have hpx2 : p x = true := by
    cases hq : p x
    · exact absurd hq hpx
    · rfl
  have hpos : 0 < (l.eraseIdx (l.findIdx p)).countP p :=
    List.countP_pos_iff.mpr ⟨x, hx, hpx2⟩
  omega

/-- When an id drawn from the supply no longer occurs in the owner's
category collection, both `updateCategory` (with the emoji key present)
and `deleteCategory` fail with "Category not found" — even though the
call may first reseed the defaults, whose fresh ids cannot collide. -/
theorem category_gone_not_found (σ1 : MemStore) (owner cid : String) (k : Nat)
    (hk : k < σ1.nextId) (hcid : cid = idOf k)
    (hcnt : (σ1.categories owner).countP (fun c => c.id == cid) = 0) :
    (∀ ev, (updateCategory owner cid ⟨some ev⟩ σ1).1 = .error "Category not found") ∧
    (deleteCategory owner cid σ1).1 = .error "Category not found" := by
  have hne : cid ≠ "" := hcid ▸ idOf_ne_empty k
  rcases hE : ensureMemCategories owner σ1 with ⟨list, σE⟩
  have hnone : ∀ x ∈ list, (fun c => c.id == cid) x = false := by
    by_cases hl : σ1.categories owner = []
    · have hseed : list = [⟨idOf (σ1.nextId + 0), owner, "Groceries", none, σ1.clock, none⟩,
          ⟨idOf (σ1.nextId + 1), owner, "Takeout", none, σ1.clock, none⟩,
          ⟨idOf (σ1.nextId + 2), owner, "Utilities", none, σ1.clock, none⟩,
          ⟨idOf (σ1.nextId + 3), owner, "Electronics", none, σ1.clock, none⟩,
          ⟨idOf (σ1.nextId + 4), owner, "Other", none, σ1.clock, none⟩] := by
        unfold ensureMemCategories at hE
        rw [hl] at hE
        simp only [ne_eq, not_true_eq_false, if_false, ite_false, seeded_eq] at hE
        exact (Prod.mk.injEq _ _ _ _ ▸ hE).1.symm
      subst hseed
      intro x hx
      simp only [List.mem_cons, List.not_mem_nil, or_false] at hx
      rcases hx with rfl | rfl | rfl | rfl | rfl <;>
        · simp only [beq_eq_false_iff_ne, ne_eq]
          intro he
          rw [hcid] at he
          have := idOf_inj he
          omega
    · have hlist : list = σ1.categories owner := by
        unfold ensureMemCategories at hE
        rw [if_pos hl] at hE
        exact (Prod.mk.injEq _ _ _ _ ▸ hE).1.symm
      subst hlist
      intro x hx
      have := List.countP_eq_zero.mp hcnt x hx
      simpa using this
  have hfidx : list.findIdx (fun c => c.id == cid) = list.length :=
    findIdx_of_none _ list hnone
  have hnlt : ¬ list.findIdx (fun c => c.id == cid) < list.length := by omega
  constructor
  · intro ev
    simp only [updateCategory, if_neg hne, hE, dif_neg hnlt]
  · simp only [deleteCategory, hE, dif_neg hnlt]

/-- C9: for a stored budget, transaction or category id (occurring exactly
once, with category ids drawn from the store's id supply), the delete
operation returns exactly the record that the corresponding list
operation shows just before the deletion, and any subsequent update or
delete on the same id fails with the not-found error. -/
theorem delete_returns_listed_then_not_found (σ : MemStore) (owner : String)
    (bid tid cid : String)
    (hB : (σ.budgets owner).countP (fun b => b.id == bid) = 1)
    (hT : (σ.transactions owner).countP (fun t => t.id == tid) = 1)
    (hC : (σ.categories owner).countP (fun c => c.id == cid) = 1)
    (hWF : ∀ c ∈ σ.categories owner, ∃ k, k < σ.nextId ∧ c.id = idOf k) :
    (∃ r σ1, deleteBudget owner bid σ = (.ok r, σ1) ∧
      listBudgets owner σ = (.ok (σ.budgets owner), σ) ∧
      (σ.budgets owner).find? (fun b => b.id == bid) = some r ∧
      (∀ ch, (updateBudget owner bid ch σ1).1 = .error "Budget not found") ∧
      (deleteBudget owner bid σ1).1 = .error "Budget not found") ∧
    (∃ r σ1, deleteTransaction owner tid σ = (.ok r, σ1) ∧
      listTransactions owner σ = (.ok (σ.transactions owner), σ) ∧
      (σ.transactions owner).find? (fun t => t.id == tid) = some r ∧
      (∀ ch, (updateTransaction owner tid ch σ1).1 = .error "Transaction not found") ∧
      (deleteTransaction owner tid σ1).1 = .error "Transaction not found") ∧
    (∃ r σ1, deleteCategory owner cid σ = (.ok r, σ1) ∧
      listCategories owner σ = (.ok (σ.categories owner), σ) ∧
      (σ.categories owner).find? (fun c => c.id == cid) = some r ∧
      (∀ ev, (updateCategory owner cid ⟨some ev⟩ σ1).1 = .error "Category not found") ∧
      (deleteCategory owner cid σ1).1 = .error "Category not found") := by
  refine ⟨?_, ?_, ?_⟩
  · obtain ⟨hidx, hfind, hcnt0, hfidx⟩ :=
      removeFirst_then_none (fun b => b.id == bid) (σ.budgets owner) hB
    refine ⟨(σ.budgets owner).get ⟨(σ.budgets owner).findIdx (fun b => b.id == bid), hidx⟩,
      { σ with
        budgets :=
          setMap σ.budgets owner
            ((σ.budgets owner).eraseIdx
              ((σ.budgets owner).findIdx (fun b => b.id == bid))) },
      ?_, rfl, hfind, ?_, ?_⟩
    · simp only [deleteBudget, dif_pos hidx]
    · intro ch
      simp only [updateBudget, setMap, if_pos, if_neg]
      simp only [hfidx, lt_self_iff_false, dite_false]
    · simp only [deleteBudget, setMap, if_pos, if_neg]
      simp only [hfidx, lt_self_iff_false, dite_false]
  · obtain ⟨hidx, hfind, hcnt0, hfidx⟩ :=
      removeFirst_then_none (fun t => t.id == tid) (σ.transactions owner) hT
    refine ⟨(σ.transactions owner).get
        ⟨(σ.transactions owner).findIdx (fun t => t.id == tid), hidx⟩,
      { σ with
        transactions :=
          setMap σ.transactions owner
            ((σ.transactions owner).eraseIdx
              ((σ.transactions owner).findIdx (fun t => t.id == tid))) },
      ?_, rfl, hfind, ?_, ?_⟩
    · simp only [deleteTransaction, dif_pos hidx]
    · intro ch
      simp only [updateTransaction, setMap, if_pos, if_neg]
      simp only [hfidx, lt_self_iff_false, dite_false]
    · simp only [deleteTransaction, setMap, if_pos, if_neg]
      simp only [hfidx, lt_self_iff_false, dite_false]
  · obtain ⟨hidx, hfind, hcnt0, hfidx⟩ :=
      removeFirst_then_none (fun c => c.id == cid) (σ.categories owner) hC
    have hne : σ.categories owner ≠ [] := by
      intro h0
      rw [h0] at hC
      simp at hC
    have hens : ensureMemCategories owner σ = (σ.categories owner, σ) := by
      unfold ensureMemCategories
      rw [if_pos hne]
    have hr := (σ.categories owner).get
      ⟨(σ.categories owner).findIdx (fun c => c.id == cid), hidx⟩
    obtain ⟨k, hk, hkid⟩ := hWF ((σ.categories owner).get
      ⟨(σ.categories owner).findIdx (fun c => c.id == cid), hidx⟩) (List.get_mem _ _ _)
    have hcidk : cid = idOf k := by
      have hp := findIdx_prop (fun c => c.id == cid) (σ.categories owner) hidx
      have := beq_iff_eq.mp hp
      rw [← this, hkid]
    refine ⟨(σ.categories owner).get
        ⟨(σ.categories owner).findIdx (fun c => c.id == cid), hidx⟩,
      { σ with
        categories :=
          setMap σ.categories owner
            ((σ.categories owner).eraseIdx
              ((σ.categories owner).findIdx (fun c => c.id == cid))) },
      ?_, ?_, hfind, ?_, ?_⟩
    · simp only [deleteCategory, hens, dif_pos hidx]
      simp [hens]
    · simp only [listCategories, hens]
    · intro ev
      exact (category_gone_not_found
        { σ with
          categories :=
            setMap σ.categories owner
              ((σ.categories owner).eraseIdx
                ((σ.categories owner).findIdx (fun c => c.id == cid))) } owner cid k hk hcidk
        (by simpa [setMap] using hcnt0)).1 ev
    · exact (category_gone_not_found
        { σ with
          categories :=
            setMap σ.categories owner
              ((σ.categories owner).eraseIdx
                ((σ.categories owner).findIdx (fun c => c.id == cid))) } owner cid k hk hcidk
        (by simpa [setMap] using hcnt0)).2

/-- Witness for C9 on `storeOneEach`. -/
theorem delete_returns_listed_then_not_found_witness :
    ((storeOneEach.budgets "u").countP (fun b => b.id == idOf 0) = 1 ∧
     (storeOneEach.transactions "u").countP (fun t => t.id == idOf 1) = 1 ∧
     (storeOneEach.categories "u").countP (fun c => c.id == idOf 2) = 1 ∧
     (∀ c ∈ storeOneEach.categories "u", ∃ k, k < storeOneEach.nextId ∧ c.id = idOf k)) ∧
    ((∃ r σ1, deleteBudget "u" (idOf 0) storeOneEach = (.ok r, σ1) ∧
      listBudgets "u" storeOneEach = (.ok (storeOneEach.budgets "u"), storeOneEach) ∧
      (storeOneEach.budgets "u").find? (fun b => b.id == idOf 0) = some r ∧
      (∀ ch, (updateBudget "u" (idOf 0) ch σ1).1 = .error "Budget not found") ∧
      (deleteBudget "u" (idOf 0) σ1).1 = .error "Budget not found") ∧
    (∃ r σ1, deleteTransaction "u" (idOf 1) storeOneEach = (.ok r, σ1) ∧
      listTransactions "u" storeOneEach = (.ok (storeOneEach.transactions "u"), storeOneEach) ∧
      (storeOneEach.transactions "u").find? (fun t => t.id == idOf 1) = some r ∧
      (∀ ch, (updateTransaction "u" (idOf 1) ch σ1).1 = .error "Transaction not found") ∧
      (deleteTransaction "u" (idOf 1) σ1).1 = .error "Transaction not found") ∧
    (∃ r σ1, deleteCategory "u" (idOf 2) storeOneEach = (.ok r, σ1) ∧
      listCategories "u" storeOneEach = (.ok (storeOneEach.categories "u"), storeOneEach) ∧
      (storeOneEach.categories "u").find? (fun c => c.id == idOf 2) = some r ∧
      (∀ ev, (updateCategory "u" (idOf 2) ⟨some ev⟩ σ1).1 = .error "Category not found") ∧
      (deleteCategory "u" (idOf 2) σ1).1 = .error "Category not found")) :=
  ⟨⟨by decide, by decide, by decide, by
      intro c hc
      have hc2 : c = (⟨idOf 2, "u", "Transit", none, 0, none⟩ : CategoryRec) := by
        simpa [storeOneEach] using hc
      subst hc2
      exact ⟨2, by decide, rfl⟩⟩,
    delete_returns_listed_then_not_found storeOneEach "u" (idOf 0) (idOf 1) (idOf 2)
      (by decide) (by decide) (by decide)
      (by
        intro c hc
        have hc2 : c = (⟨idOf 2, "u", "Transit", none, 0, none⟩ : CategoryRec) := by
          simpa [storeOneEach] using hc
        subst hc2
        exact ⟨2, by decide, rfl⟩)⟩

/-- C10 counterexample: `deleteCategory` is a category-store operation
after which the owner's collection can be empty — deleting the only
category of `storeWithGroceries` succeeds and leaves zero categories. -/
theorem deleteCategory_can_leave_empty :
    (deleteCategory "u" (idOf 0) storeWithGroceries).1 =
      .ok ⟨idOf 0, "u", "Groceries", none, 0, none⟩ ∧
    (deleteCategory "u" (idOf 0) storeWithGroceries).2.categories "u" = [] := by
  constructor
  · rfl
  · rfl

/-- Seeding yields a non-empty collection recorded in the post-state. -/
theorem ensureMemCategories_spec (σ : MemStore) (owner : String) :
    (ensureMemCategories owner σ).1 ≠ [] ∧
    (ensureMemCategories owner σ).2.categories owner = (ensureMemCategories owner σ).1 := by
  by_cases h : σ.categories owner = []
  · have hens : ensureMemCategories owner σ =
        ([⟨idOf (σ.nextId + 0), owner, "Groceries", none, σ.clock, none⟩,
          ⟨idOf (σ.nextId + 1), owner, "Takeout", none, σ.clock, none⟩,
          ⟨idOf (σ.nextId + 2), owner, "Utilities", none, σ.clock, none⟩,
          ⟨idOf (σ.nextId + 3), owner, "Electronics", none, σ.clock, none⟩,
          ⟨idOf (σ.nextId + 4), owner, "Other", none, σ.clock, none⟩],
         { σ with
           categories := setMap σ.categories owner
             [⟨idOf (σ.nextId + 0), owner, "Groceries", none, σ.clock, none⟩,
              ⟨idOf (σ.nextId + 1), owner, "Takeout", none, σ.clock, none⟩,
              ⟨idOf (σ.nextId + 2), owner, "Utilities", none, σ.clock, none⟩,
              ⟨idOf (σ.nextId + 3), owner, "Electronics", none, σ.clock, none⟩,
              ⟨idOf (σ.nextId + 4), owner, "Other", none, σ.clock, none⟩],
           nextId := σ.nextId + 5 }) := by
      unfold ensureMemCategories
      rw [h]
      simp only [ne_eq, not_true_eq_false, if_false, ite_false, seeded_eq]
      rfl
    rw [hens]
    exact ⟨by simp, by simp [setMap]⟩
  · have hens : ensureMemCategories owner σ = (σ.categories owner, σ) := by
      unfold ensureMemCategories
      rw [if_pos h]
    rw [hens]
    exact ⟨h, rfl⟩

/-- C10 (amended): in the in-memory fallback path every category-store
operation seeds the defaults for an owner whose collection is empty
before doing its work, so after `listCategories`, `categoryExists` (with
a nonempty trimmed name), `createCategory` (with a nonempty trimmed name)
and `updateCategory` (with an id and the emoji key present) the owner's
collection is non-empty; `deleteCategory` alone can leave it empty.  In
particular, for a brand-new owner, `categoryExists(owner, "Groceries")`
returns true, and `createCategory(owner, "Groceries", …)` fails with the
duplicate-category error even though the owner never created a category —
and the seeding side effect persists although the operation fails. -/
theorem category_ops_seed_defaults (σ : MemStore) (owner : String) :
    ((listCategories owner σ).2.categories owner ≠ [] ∧
     (∀ nm, normalizeCategoryName nm ≠ "" →
        (categoryExists owner nm σ).2.categories owner ≠ []) ∧
     (∀ nm em, normalizeCategoryName nm ≠ "" →
        (createCategory owner nm em σ).2.categories owner ≠ []) ∧
     (∀ id0 : String, ∀ ev, id0 ≠ "" →
        (updateCategory owner id0 ⟨some ev⟩ σ).2.categories owner ≠ [])) ∧
    (σ.categories owner = [] →
      ∀ em, (categoryExists owner "Groceries" σ).1 = .ok true ∧
        (createCategory owner "Groceries" em σ).1 = .error "Category already exists." ∧
        (createCategory owner "Groceries" em σ).2.categories owner ≠ []) := by
  obtain ⟨hne, hpost⟩ := ensureMemCategories_spec σ owner
  rcases hE : ensureMemCategories owner σ with ⟨list, σE⟩
  rw [hE] at hne hpost
  simp only at hne hpost
  constructor
  · refine ⟨?_, ?_, ?_, ?_⟩
    · simp only [listCategories, hE]
      rw [hpost]
      exact hne
    · intro nm hnm
      simp only [categoryExists, if_neg hnm, hE]
      rw [hpost]
      exact hne
    · intro nm em hnm
      simp only [createCategory, if_neg hnm, hE]
      by_cases hdup : list.any (fun c => jsToLower c.name == jsToLower (normalizeCategoryName nm))
      · simp only [hdup, if_true]
        rw [hpost]
        exact hne
      · simp only [hdup, if_false]
        simp only [Bool.false_eq_true, if_false, setMap, MemStore.genId]
        simp
    · intro id0 ev hid
      simp only [updateCategory, if_neg hid, hE]
      by_cases hidx : list.findIdx (fun c => c.id == id0) < list.length
      · simp only [dif_pos hidx, setMap]
        simp only [if_pos]
        intro hcontra
        have := congrArg List.length hcontra
        simp only [List.length_set, List.length_nil] at this
        have : list = [] := List.eq_nil_of_length_eq_zero this
        exact hne this
      · simp only [dif_neg hidx]
        rw [hpost]
        exact hne
  · intro hempty em
    have hens : ensureMemCategories owner σ =
        ([⟨idOf (σ.nextId + 0), owner, "Groceries", none, σ.clock, none⟩,
          ⟨idOf (σ.nextId + 1), owner, "Takeout", none, σ.clock, none⟩,
          ⟨idOf (σ.nextId + 2), owner, "Utilities", none, σ.clock, none⟩,
          ⟨idOf (σ.nextId + 3), owner, "Electronics", none, σ.clock, none⟩,
          ⟨idOf (σ.nextId + 4), owner, "Other", none, σ.clock, none⟩],
         { σ with
           categories := setMap σ.categories owner
             [⟨idOf (σ.nextId + 0), owner, "Groceries", none, σ.clock, none⟩,
              ⟨idOf (σ.nextId + 1), owner, "Takeout", none, σ.clock, none⟩,
              ⟨idOf (σ.nextId + 2), owner, "Utilities", none, σ.clock, none⟩,
              ⟨idOf (σ.nextId + 3), owner, "Electronics", none, σ.clock, none⟩,
              ⟨idOf (σ.nextId + 4), owner, "Other", none, σ.clock, none⟩],
           nextId := σ.nextId + 5 }) := by
      unfold ensureMemCategories
      rw [hempty]
      simp only [ne_eq, not_true_eq_false, if_false, ite_false, seeded_eq]
      rfl
    have hany : ([⟨idOf (σ.nextId + 0), owner, "Groceries", none, σ.clock, none⟩,
          ⟨idOf (σ.nextId + 1), owner, "Takeout", none, σ.clock, none⟩,
          ⟨idOf (σ.nextId + 2), owner, "Utilities", none, σ.clock, none⟩,
          ⟨idOf (σ.nextId + 3), owner, "Electronics", none, σ.clock, none⟩,
          ⟨idOf (σ.nextId + 4), owner, "Other", none, σ.clock, none⟩] :
            List CategoryRec).any
        (fun c => jsToLower c.name == jsToLower (normalizeCategoryName "Groceries")) =
          true := rfl
    have hname : ¬ (normalizeCategoryName "Groceries" = "") := by decide
    refine ⟨?_, ?_, ?_⟩
    · simp only [categoryExists, if_neg hname, hens, hany]
    · simp only [createCategory, if_neg hname, hens, hany, if_true]
    · simp only [createCategory, if_neg hname, hens, hany, if_true]
      simp [setMap]

/-- Witness for C10 (amended) on the brand-new owner "u" of the empty
store. -/
theorem category_ops_seed_defaults_witness :
    (normalizeCategoryName "Transit" ≠ "" ∧ ((idOf 9 : String) ≠ "") ∧
      emptyStore.categories "u" = []) ∧
    ((listCategories "u" emptyStore).2.categories "u" ≠ [] ∧
     (categoryExists "u" "Transit" emptyStore).2.categories "u" ≠ [] ∧
     (createCategory "u" "Transit" none emptyStore).2.categories "u" ≠ [] ∧
     (updateCategory "u" (idOf 9) ⟨some none⟩ emptyStore).2.categories "u" ≠ [] ∧
     (categoryExists "u" "Groceries" emptyStore).1 = .ok true ∧
     (createCategory "u" "Groceries" (some "x") emptyStore).1 =
       .error "Category already exists." ∧
     (createCategory "u" "Groceries" (some "x") emptyStore).2.categories "u" ≠ []) :=
  ⟨⟨by decide, by decide, rfl⟩,
   ⟨(category_ops_seed_defaults emptyStore "u").1.1,
    (category_ops_seed_defaults emptyStore "u").1.2.1 "Transit" (by decide),
    (category_ops_seed_defaults emptyStore "u").1.2.2.1 "Transit" none (by decide),
    (category_ops_seed_defaults emptyStore "u").1.2.2.2 (idOf 9) none (by decide),
    ((category_ops_seed_defaults emptyStore "u").2 rfl (some "x")).1,
    ((category_ops_seed_defaults emptyStore "u").2 rfl (some "x")).2.1,
    ((category_ops_seed_defaults emptyStore "u").2 rfl (some "x")).2.2⟩⟩

end WalletAlert
